import Mathlib

/-!
Verification of the band-stacking command in `rasterio/rio/bands.py`
(the `stack` command): selection-expression parsing, layout planning,
output metadata assembly, the copy loop, and the top-level exit-code
handler, embedded shallowly and checked against the specification.
-/

set_option maxRecDepth 10000

deriving instance DecidableEq for Except

/-- Metadata value: an opaque string-valued field or a numeric field
(the band count is numeric).  Stands for the arbitrary Python values
held in a dataset metadata dict. -/
inductive MetaVal where
  | str (s : String)
  | nat (n : Nat)
deriving DecidableEq

/-- Modelled from the spec: the result of the collaborator operation
open-dataset-for-read(path), namely the pair of a band count and the
metadata mapping (rasterio dataset objects are not under src/).  The
spec calls this an Input Reference with its "band count (queried
lazily, once, when needed)" and its metadata. -/
structure Dataset where
  count : Nat
  meta : List (String × MetaVal)
deriving DecidableEq

/-- Resolved Selection: either a single 1-based band index (a Python
`int`) or an ordered list of indices (a Python `list`).  Mirrors the
dynamic int-vs-list typing the copy loop dispatches on with
`isinstance`. -/
inductive Sel where
  | scalar (i : Int)
  | list (l : List Int)
deriving DecidableEq

/-- Length contributed by a resolved selection (`1` for a scalar,
`len` for a list). -/
def selCount : Sel → Nat
  | Sel.scalar _ => 1
  | Sel.list l => l.length

/-- Modelled from the spec: the collaborator attribute `src.indexes`
(not under src/), described by the spec as "the full ordered band list
[1..N]" of an input with N bands. -/
def srcIndexes (n : Nat) : List Int :=
  (List.range' 1 n).map Int.ofNat

/-- Python index normalisation for a slice bound over a list of length
`len` (step 1): a negative bound counts from the end and is clamped at
0, a nonnegative bound is clamped at `len`. -/
def pySliceIdx (len : Nat) (v : Int) : Nat :=
  if v < 0 then ((len : Int) + v).toNat else min v.toNat len

/-- Normalised start bound of a Python slice (`None` is the front). -/
def sliceStart (len : Nat) : Option Int → Nat
  | none => 0
  | some v => pySliceIdx len v

/-- Normalised stop bound of a Python slice (`None` is the back). -/
def sliceStop (len : Nat) : Option Int → Nat
  | none => len
  | some v => pySliceIdx len v

/-- Python `xs[slice(start, stop)]` with step 1: `None` bounds default
to the ends, then elements from the normalised start up to (excluding)
the normalised stop. -/
def pySlice (start? stop? : Option Int) (xs : List α) : List α :=
  (xs.drop (sliceStart xs.length start?)).take
    (sliceStop xs.length stop? - sliceStart xs.length start?)

/-- Numeric value of a digit string (already validated). -/
def digitsToNat (cs : List Char) : Nat :=
  cs.foldl (fun acc c => acc * 10 + (c.toNat - 48)) 0

/-- Parse a nonempty all-digit character list, as the unsigned core of
Python `int(str)`. -/
def pyNat? (cs : List Char) : Option Nat :=
  if !cs.isEmpty && cs.all Char.isDigit then some (digitsToNat cs) else none

/-- Strip leading and trailing whitespace, as Python `int` does before
parsing. -/
def stripWS (cs : List Char) : List Char :=
  ((cs.dropWhile Char.isWhitespace).reverse.dropWhile Char.isWhitespace).reverse

/-- Python `int(s)` on a string given as a character list: optional
sign then digits; `none` is a `ValueError`. -/
def pyInt? (s : List Char) : Option Int :=
  match stripWS s with
  | '-' :: rest => (pyNat? rest).map (fun m => -(m : Int))
  | '+' :: rest => (pyNat? rest).map (fun m => (m : Int))
  | cs => (pyNat? cs).map (fun m => (m : Int))

/-- First index of `cs` at which `sep` occurs as a prefix of the
remaining list (Python `str.find` for the separator). -/
def findSub (sep : List Char) : List Char → Option Nat
  | [] => if sep.isEmpty then some 0 else none
  | c :: t => if sep.isPrefixOf (c :: t) then some 0 else (findSub sep t).map (· + 1)

/-- Python substring containment `sep in s`. -/
def containsSub (sep cs : List Char) : Bool :=
  (findSub sep cs).isSome

/-- Fuel-driven worker for `pySplit`. -/
def pySplitGo (fuel : Nat) (sep cs : List Char) : List (List Char) :=
  match fuel with
  | 0 => [cs]
  | fuel + 1 =>
    match findSub sep cs with
    | none => [cs]
    | some i => cs.take i :: pySplitGo fuel sep (cs.drop (i + sep.length))

/-- Python `str.split(sep)` for a nonempty separator: non-overlapping
splits left to right, empty pieces kept. -/
def pySplit (sep cs : List Char) : List (List Char) :=
  pySplitGo (cs.length + 1) sep cs

/-- The range separator, two consecutive dots. -/
def twoDots : List Char := ['.', '.']

/-- The list separator, a comma. -/
def commaSep : List Char := [',']

/-- `lambda x: int(x) if x else None` applied to one side of a split
range expression: the empty token is `None`, otherwise `int` (whose
failure is a raised `ValueError`, hence `Except`). -/
def parseRangeToken (t : List Char) : Except String (Option Int) :=
  if t.isEmpty then Except.ok none
  else
    match pyInt? t with
    | some v => Except.ok (some v)
    | none => Except.error "ValueError: invalid literal for int"

/-- The body of the range branch of `stack` after both tokens parsed:
`if start is None: start = 1`, then
`src_indexes[slice(start-1, stop)]` appended together with its length
added to the running output count. -/
def rangeBranch (srcIdx : List Int) (start? stop? : Option Int) : Sel × Nat :=
  let start := start?.getD 1
  let sl := pySlice (some (start - 1)) stop? srcIdx
  (Sel.list sl, sl.length)

/-- `int` applied to one comma-separated token, raising on failure. -/
def parseIntTok (t : List Char) : Except String Int :=
  match pyInt? t with
  | some v => Except.ok v
  | none => Except.error "ValueError: invalid literal for int"

/-- The comma-list branch of `stack`:
`parts = list(map(int, item.split(',')))`; a single part is appended
as a scalar contributing 1, several parts as a list contributing
`len(parts)`. -/
def listBranch (toks : List (List Char)) : Except String (Sel × Nat) :=
  match toks.mapM parseIntTok with
  | Except.error e => Except.error e
  | Except.ok parts =>
    match parts with
    | [p] => Except.ok (Sel.scalar p, 1)
    | _ => Except.ok (Sel.list parts, parts.length)

/-- One iteration of the selection loop of `stack` for an input with
`n` bands and selection expression `item`: absent expression takes all
bands; an expression containing two dots is split into at most two
range tokens (any other arity is the `ValueError` of unpacking) and
sliced; otherwise the comma-list branch runs.  Returns the appended
index entry and the amount added to `output_count`. -/
def resolveStep (n : Nat) (item : Option String) : Except String (Sel × Nat) :=
  match item with
  | none => Except.ok (Sel.list (srcIndexes n), (srcIndexes n).length)
  | some item =>
    if containsSub twoDots item.toList then
      match pySplit twoDots item.toList with
      | [a, b] =>
        match parseRangeToken a, parseRangeToken b with
        | Except.ok start?, Except.ok stop? =>
          Except.ok (rangeBranch (srcIndexes n) start? stop?)
        | Except.error e, _ => Except.error e
        | _, Except.error e => Except.error e
      | _ => Except.error "ValueError: too many values to unpack"
    else
      listBranch (pySplit commaSep item.toList)

/-- `itertools.zip_longest(xs, ys, fillvalue=None)`. -/
def zipLongest : List α → List β → List (Option α × Option β)
  | [], ys => ys.map (fun y => (none, some y))
  | x :: xs, [] => (some x, none) :: zipLongest xs []
  | x :: xs, y :: ys => (some x, some y) :: zipLongest xs ys

/-- The whole selection loop of `stack` over the zip-longest pairing
of inputs and selection expressions: a missing input path is the
failure of `rasterio.open(None)`; each present pair is resolved and
accumulated into the `indexes` list and the `output_count` total. -/
def resolveAllGo : List (Option Dataset × Option String) → Except String (List Sel × Nat)
  | [] => Except.ok ([], 0)
  | (none, _) :: _ => Except.error "rasterio.open(None) failed: invalid path"
  | (some src, item) :: rest =>
    match resolveStep src.count item with
    | Except.error e => Except.error e
    | Except.ok (sel, cnt) =>
      match resolveAllGo rest with
      | Except.error e => Except.error e
      | Except.ok (sels, total) => Except.ok (sel :: sels, cnt + total)

/-- Python dict assignment `d[k] = v` on an association list: replaces
the first binding of `k` in place, or appends a new binding at the
end. -/
def setKey (k : String) (v : MetaVal) : List (String × MetaVal) → List (String × MetaVal)
  | [] => [(k, v)]
  | (k', v') :: rest => if k' = k then (k, v) :: rest else (k', v') :: setKey k v rest

/-- Removal of a key, the removing half of Python `d.pop(k)`. -/
def eraseKey (k : String) (d : List (String × MetaVal)) : List (String × MetaVal) :=
  d.filter (fun p => p.1 != k)

/-- Assembly of the output metadata in `stack`:
`kwargs = first.meta; kwargs['transform'] = kwargs.pop('affine')`
(a `KeyError` if absent), then
`kwargs.update(driver=driver, count=output_count)`, then
`kwargs['photometric'] = photometric` only when one was supplied. -/
def buildMeta (meta : List (String × MetaVal)) (driverVal : MetaVal) (count : Nat)
    (photometric : Option MetaVal) : Except String (List (String × MetaVal)) :=
  match List.lookup "affine" meta with
  | none => Except.error "KeyError: affine"
  | some a =>
    let kwargs := setKey "transform" a (eraseKey "affine" meta)
    let kwargs := setKey "count" (MetaVal.nat count) (setKey "driver" driverVal kwargs)
    match photometric with
    | some p => Except.ok (setKey "photometric" p kwargs)
    | none => Except.ok kwargs

/-- Whether a 1-based band index is within a dataset of `count`
bands. -/
def bandOk (count : Nat) (i : Int) : Bool :=
  decide (1 ≤ i ∧ i ≤ (count : Int))

/-- Modelled from the spec: the collaborator operation
read-band(s)(indices) (rasterio `src.read`, not under src/).  Per the
spec an out-of-range band index is "surfaced by the I/O collaborator
when a resolved index exceeds the input's actual band count"; the
read succeeds exactly when every requested index is within 1..count. -/
def readBands (count : Nat) (sel : Sel) : Except String Unit :=
  match sel with
  | Sel.scalar i =>
    if bandOk count i then Except.ok () else Except.error "IndexError: band index out of range"
  | Sel.list l =>
    if l.all (bandOk count) then Except.ok () else Except.error "IndexError: band index out of range"

/-- What one iteration of the copy loop does: which bands it reads
from the source, which destination bands it writes, and whether it
took the batch (list) path or the single-band (scalar) path. -/
structure CopyEvent where
  read : Sel
  dst : List Nat
  batch : Bool
deriving DecidableEq

/-- The write step of one copy iteration at destination cursor
`dst_idx`: a scalar is written to the single band `dst_idx` and the
cursor advances by 1; a list is written to
`range(dst_idx, dst_idx+len(index))` and the cursor advances by
`len(index)`. -/
def copyStep (dst_idx : Nat) (index : Sel) : CopyEvent × Nat :=
  match index with
  | Sel.scalar i => ({ read := Sel.scalar i, dst := [dst_idx], batch := false }, dst_idx + 1)
  | Sel.list l =>
    ({ read := Sel.list l, dst := List.range' dst_idx l.length, batch := true }, dst_idx + l.length)

/-- The copy loop of `stack` over `zip(input, indexes)` with the
destination cursor `dst_idx` starting at 1: each iteration reads the
resolved bands from its source (where the collaborator may raise) and
writes them at the cursor. -/
def copyPhaseGo (dst_idx : Nat) : List (Dataset × Sel) → Except String (List CopyEvent)
  | [] => Except.ok []
  | (src, index) :: rest =>
    match readBands src.count index with
    | Except.error e => Except.error e
    | Except.ok _ =>
      let (ev, next) := copyStep dst_idx index
      match copyPhaseGo next rest with
      | Except.error e => Except.error e
      | Except.ok evs => Except.ok (ev :: evs)

/-- Everything the body of `stack` produces on success: the resolved
`indexes` list, the accumulated `output_count`, the assembled output
metadata, and the copy-loop trace. -/
structure StackResult where
  sels : List Sel
  output_count : Nat
  kwargs : List (String × MetaVal)
  events : List CopyEvent
deriving DecidableEq

/-- The body of the `try` block of `stack`: resolve every selection
over the zip-longest pairing, read the first input's metadata
(`input[0]` is an `IndexError` on an empty list), assemble the output
metadata, then run the copy loop from cursor 1.  Any raised exception
is the `Except.error` case. -/
def stackBody (inputs : List Dataset) (bidx : List String) (driver : String)
    (photometric : Option String) : Except String StackResult :=
  match resolveAllGo (zipLongest inputs bidx) with
  | Except.error e => Except.error e
  | Except.ok (sels, output_count) =>
    match inputs with
    | [] => Except.error "IndexError: list index out of range"
    | first :: _ =>
      match buildMeta first.meta (MetaVal.str driver) output_count
          (photometric.map MetaVal.str) with
      | Except.error e => Except.error e
      | Except.ok kwargs =>
        match copyPhaseGo 1 (inputs.zip sels) with
        | Except.error e => Except.error e
        | Except.ok events =>
          Except.ok { sels := sels, output_count := output_count,
                      kwargs := kwargs, events := events }

/-- The top-level handler of `stack`: on success the `try` block ends
in `sys.exit(0)`; on any raised exception the handler logs
"Failed. Exception caught" and runs `sys.exit(1)`.  Returns the exit
code and the log stream. -/
def stackRun (inputs : List Dataset) (bidx : List String) (driver : String)
    (photometric : Option String) : Nat × List String :=
  match stackBody inputs bidx driver photometric with
  | Except.ok _ => (0, [])
  | Except.error e => (1, [String.append "Failed. Exception caught: " e])

/-- Concrete successful run used to exercise the layout invariants on
one input of 3 bands with the selection expression "1,3". -/
def R0 : StackResult :=
  { sels := [Sel.list [1, 3]],
    output_count := 2,
    kwargs := [("transform", MetaVal.str "A"), ("driver", MetaVal.str "GTiff"),
               ("count", MetaVal.nat 2)],
    events := [{ read := Sel.list [1, 3], dst := [1, 2], batch := true }] }

/-- The band list of an `n`-band input has length `n`. -/
theorem length_srcIndexes (n : Nat) : (srcIndexes n).length = n := by
  unfold srcIndexes
  rw [List.length_map, List.length_range']

/-- Every entry of the band list of an `n`-band input lies in 1..n. -/
theorem mem_srcIndexes {n : Nat} {x : Int} (h : x ∈ srcIndexes n) :
    1 ≤ x ∧ x ≤ (n : Int) := by
  unfold srcIndexes at h
  rcases List.mem_map.1 h with ⟨k, hk, rfl⟩
  rw [List.mem_range'_1] at hk
  rw [Int.ofNat_eq_natCast]
  omega

/-- Dropping `k` elements of `range' s n` leaves `range' (s+k) (n-k)`. -/
theorem rgDrop : ∀ (k s n : Nat), (List.range' s n).drop k = List.range' (s + k) (n - k) := by
  intro k
  induction k with
  | zero => intro s n; simp
  | succ k ih =>
    intro s n
    cases n with
    | zero => simp
    | succ m =>
      rw [List.range'_succ, List.drop_succ_cons, ih (s + 1) m]
      have h1 : s + 1 + k = s + (k + 1) := by omega
      have h2 : m - k = m + 1 - (k + 1) := by omega
      rw [h1, h2]

/-- Taking `k` elements of `range' s n` leaves `range' s (min k n)`. -/
theorem rgTake : ∀ (k s n : Nat), (List.range' s n).take k = List.range' s (min k n) := by
  intro k
  induction k with
  | zero => intro s n; simp
  | succ k ih =>
    intro s n
    cases n with
    | zero => simp
    | succ m =>
      rw [List.range'_succ, List.take_succ_cons, ih (s + 1) m]
      have h1 : min (k + 1) (m + 1) = min k m + 1 := by omega
      rw [h1, List.range'_succ]

/-- A slice of a list only contains elements of the list. -/
theorem pySlice_subset {α : Type} {xs : List α} {a : α} (start? stop? : Option Int)
    (h : a ∈ pySlice start? stop? xs) : a ∈ xs := by
  simp only [pySlice] at h
  exact List.mem_of_mem_drop (List.mem_of_mem_take h)

/-- What the range branch produces, unfolded. -/
theorem rangeBranch_eq (srcIdx : List Int) (start? stop? : Option Int) :
    rangeBranch srcIdx start? stop? =
      (Sel.list (pySlice (some (start?.getD 1 - 1)) stop? srcIdx),
        (pySlice (some (start?.getD 1 - 1)) stop? srcIdx).length) := rfl

/-- The count a resolved selection adds to `output_count` always
equals its `selCount`. -/
theorem listBranch_count {toks : List (List Char)} {sel : Sel} {cnt : Nat}
    (h : listBranch toks = Except.ok (sel, cnt)) : cnt = selCount sel := by
  unfold listBranch at h
  split at h
  · exact absurd h (by simp)
  · split at h
    · obtain ⟨h1, h2⟩ := Prod.mk.injEq .. ▸ (Except.ok.injEq .. ▸ h)
      subst h1; subst h2; rfl
    · obtain ⟨h1, h2⟩ := Prod.mk.injEq .. ▸ (Except.ok.injEq .. ▸ h)
      subst h1; subst h2; rfl

/-- The amount `resolveStep` adds to `output_count` equals the
`selCount` of the appended selection. -/
theorem resolveStep_count {n : Nat} {item : Option String} {sel : Sel} {cnt : Nat}
    (h : resolveStep n item = Except.ok (sel, cnt)) : cnt = selCount sel := by
  cases item with
  | none =>
    simp only [resolveStep, Except.ok.injEq, Prod.mk.injEq] at h
    obtain ⟨h1, h2⟩ := h
    subst h1; subst h2; rfl
  | some s =>
    simp only [resolveStep] at h
    split at h
    · split at h
      · split at h
        · rw [rangeBranch_eq] at h
          obtain ⟨h1, h2⟩ := Prod.mk.injEq .. ▸ (Except.ok.injEq .. ▸ h)
          subst h1; subst h2; rfl
        · exact absurd h (by simp)
        · exact absurd h (by simp)
      · exact absurd h (by simp)
    · exact listBranch_count h

/-- `range'` with step 1 splits as a concatenation at any point. -/
theorem rgAppend (s m n : Nat) :
    List.range' s m ++ List.range' (s + m) n = List.range' s (m + n) := by
  have h := List.range'_append s m n 1
  simp only [Nat.mul_one, Nat.one_mul] at h
  rw [Nat.add_comm n m] at h
  exact h

/-- The selection loop: the accumulated `output_count` equals the sum
of the resolved selections' counts, one selection is appended per
pair, and every pair that was processed had a present input path. -/
theorem resolveAllGo_spec :
    ∀ (ps : List (Option Dataset × Option String)) (sels : List Sel) (total : Nat),
      resolveAllGo ps = Except.ok (sels, total) →
        total = (sels.map selCount).sum ∧ sels.length = ps.length ∧
          ∀ p ∈ ps, p.1.isSome = true := by
  intro ps
  induction ps with
  | nil =>
    intro sels total h
    simp only [resolveAllGo, Except.ok.injEq, Prod.mk.injEq] at h
    obtain ⟨h1, h2⟩ := h
    subst h1; subst h2
    simp
  | cons p rest ih =>
    intro sels total h
    obtain ⟨o, item⟩ := p
    cases o with
    | none => simp [resolveAllGo] at h
    | some src =>
      cases hstep : resolveStep src.count item with
      | error e => simp [resolveAllGo, hstep] at h
      | ok pr =>
        obtain ⟨sel, cnt⟩ := pr
        cases hrest : resolveAllGo rest with
        | error e => simp [resolveAllGo, hstep, hrest] at h
        | ok pr' =>
          obtain ⟨sels', total'⟩ := pr'
          simp only [resolveAllGo, hstep, hrest, Except.ok.injEq, Prod.mk.injEq] at h
          obtain ⟨h1, h2⟩ := h
          subst h1; subst h2
          obtain ⟨ihsum, ihlen, ihsome⟩ := ih sels' total' hrest
          refine ⟨?_, ?_, ?_⟩
          · rw [List.map_cons, List.sum_cons, ← resolveStep_count hstep, ihsum]
          · simp [ihlen]
          · intro q hq
            rcases List.mem_cons.1 hq with hq | hq
            · subst hq; rfl
            · exact ihsome q hq

/-- When every `zip_longest` pair has a present left component, the
pairing is exactly as long as the left list. -/
theorem zipLongest_len_of_some :
    ∀ (xs : List α) (ys : List β),
      (∀ p ∈ zipLongest xs ys, p.1.isSome = true) →
        (zipLongest xs ys).length = xs.length := by
  intro xs
  induction xs with
  | nil =>
    intro ys h
    cases ys with
    | nil => simp [zipLongest]
    | cons y ys =>
      have := h (none, some y) (by simp [zipLongest])
      simp at this
  | cons x xs ih =>
    intro ys h
    cases ys with
    | nil =>
      simp only [zipLongest] at h ⊢
      rw [List.length_cons, ih [] (fun p hp => h p (List.mem_cons_of_mem _ hp)),
        List.length_cons]
    | cons y ys =>
      simp only [zipLongest] at h ⊢
      rw [List.length_cons, ih ys (fun p hp => h p (List.mem_cons_of_mem _ hp)),
        List.length_cons]

/-- The copy loop writes exactly the contiguous destination range
starting at the cursor whose length is the total selection count, in
plan order. -/
theorem copyPhaseGo_flatten :
    ∀ (pairs : List (Dataset × Sel)) (c : Nat) (evs : List CopyEvent),
      copyPhaseGo c pairs = Except.ok evs →
        (evs.map CopyEvent.dst).flatten =
          List.range' c ((pairs.map (fun p => selCount p.2)).sum) := by
  intro pairs
  induction pairs with
  | nil =>
    intro c evs h
    simp only [copyPhaseGo, Except.ok.injEq] at h
    subst h
    simp
  | cons pr rest ih =>
    intro c evs h
    obtain ⟨src, index⟩ := pr
    cases hrd : readBands src.count index with
    | error e => simp [copyPhaseGo, hrd] at h
    | ok u =>
      cases index with
      | scalar i =>
        cases hrest : copyPhaseGo (c + 1) rest with
        | error e => simp [copyPhaseGo, hrd, copyStep, hrest] at h
        | ok evs' =>
          simp only [copyPhaseGo, hrd, copyStep, hrest, Except.ok.injEq] at h
          subst h
          simp only [List.map_cons, List.flatten_cons, ih (c + 1) evs' hrest,
            List.sum_cons]
          rw [show selCount (Sel.scalar i) = 1 from rfl,
            ← rgAppend c 1 ((rest.map (fun p => selCount p.2)).sum), List.range'_one]
      | list l =>
        cases hrest : copyPhaseGo (c + l.length) rest with
        | error e => simp [copyPhaseGo, hrd, copyStep, hrest] at h
        | ok evs' =>
          simp only [copyPhaseGo, hrd, copyStep, hrest, Except.ok.injEq] at h
          subst h
          simp only [List.map_cons, List.flatten_cons, ih (c + l.length) evs' hrest,
            List.sum_cons]
          rw [show selCount (Sel.list l) = l.length from rfl,
            ← rgAppend c l.length ((rest.map (fun p => selCount p.2)).sum)]

/-- Looking up the key just set yields the value just set. -/
theorem lookup_setKey_self (k : String) (v : MetaVal) :
    ∀ d, List.lookup k (setKey k v d) = some v := by
  intro d
  induction d with
  | nil => simp [setKey, List.lookup_cons]
  | cons p rest ih =>
    obtain ⟨k', v'⟩ := p
    by_cases hk : k' = k
    · subst hk
      simp [setKey, List.lookup_cons]
    · have hb : (k == k') = false := beq_eq_false_iff_ne.mpr (Ne.symm hk)
      simp [setKey, if_neg hk, List.lookup_cons, hb, ih]

/-- Setting one key leaves lookups of any other key unchanged. -/
theorem lookup_setKey_other {k k' : String} (h : k' ≠ k) (v : MetaVal) :
    ∀ d, List.lookup k' (setKey k v d) = List.lookup k' d := by
  intro d
  have hb : (k' == k) = false := beq_eq_false_iff_ne.mpr h
  induction d with
  | nil => simp [setKey, List.lookup_cons, hb, List.lookup]
  | cons p rest ih =>
    obtain ⟨k1, v1⟩ := p
    by_cases hk : k1 = k
    · subst hk
      simp [setKey, List.lookup_cons, hb]
    · by_cases hk' : k' = k1
      · subst hk'
        simp [setKey, if_neg hk, List.lookup_cons]
      · have hb' : (k' == k1) = false := beq_eq_false_iff_ne.mpr hk'
        simp [setKey, if_neg hk, List.lookup_cons, hb', ih]

/-- After erasing a key it can no longer be looked up. -/
theorem lookup_eraseKey_self (k : String) :
    ∀ d, List.lookup k (eraseKey k d) = none := by
  intro d
  induction d with
  | nil => simp [eraseKey, List.lookup]
  | cons p rest ih =>
    obtain ⟨k1, v1⟩ := p
    by_cases hk : k1 = k
    · subst hk
      simpa [eraseKey, List.filter_cons] using ih
    · have hb : (k == k1) = false := beq_eq_false_iff_ne.mpr (Ne.symm hk)
      have hb' : (k1 != k) = true := by simp [bne, beq_eq_false_iff_ne.mpr hk]
      simpa [eraseKey, List.filter_cons, hb', List.lookup_cons, hb] using ih

/-- Erasing one key leaves lookups of any other key unchanged. -/
theorem lookup_eraseKey_other {k k' : String} (h : k' ≠ k) :
    ∀ d, List.lookup k' (eraseKey k d) = List.lookup k' d := by
  intro d
  induction d with
  | nil => simp [eraseKey]
  | cons p rest ih =>
    obtain ⟨k1, v1⟩ := p
    by_cases hk : k1 = k
    · subst hk
      have hb : (k' == k1) = false := beq_eq_false_iff_ne.mpr h
      simpa [eraseKey, List.filter_cons, List.lookup_cons, hb] using ih
    · have hb' : (k1 != k) = true := by simp [bne, beq_eq_false_iff_ne.mpr hk]
      by_cases hk' : k' = k1
      · subst hk'
        simp [eraseKey, List.filter_cons, hb', List.lookup_cons]
      · have hb : (k' == k1) = false := beq_eq_false_iff_ne.mpr hk'
        simpa [eraseKey, List.filter_cons, hb', List.lookup_cons, hb] using ih

/-- Full characterisation of the assembled output metadata: the band
count is the accumulated total, the driver comes from the CLI value,
the transform value is the input's affine value (moved to the key
"transform", leaving no "affine" key), photometric appears exactly
when supplied, and every other field is unchanged. -/
theorem buildMeta_spec (meta : List (String × MetaVal)) (dv : MetaVal) (c : Nat)
    (ph : Option MetaVal) (a : MetaVal) (h : List.lookup "affine" meta = some a) :
    ∃ out, buildMeta meta dv c ph = Except.ok out ∧
      List.lookup "driver" out = some dv ∧
      List.lookup "count" out = some (MetaVal.nat c) ∧
      List.lookup "transform" out = some a ∧
      List.lookup "affine" out = none ∧
      (∀ p, ph = some p → List.lookup "photometric" out = some p) ∧
      (ph = none → List.lookup "photometric" out = List.lookup "photometric" meta) ∧
      (∀ k, k ≠ "driver" → k ≠ "count" → k ≠ "transform" → k ≠ "affine" →
        k ≠ "photometric" → List.lookup k out = List.lookup k meta) := by
  cases ph with
  | none =>
    refine ⟨setKey "count" (MetaVal.nat c)
      (setKey "driver" dv (setKey "transform" a (eraseKey "affine" meta))), ?_, ?_, ?_, ?_, ?_, ?_, ?_, ?_⟩
    · simp only [buildMeta, h]
    · rw [lookup_setKey_other (by decide) _ _, lookup_setKey_self]
    · rw [lookup_setKey_self]
    · rw [lookup_setKey_other (by decide) _ _, lookup_setKey_other (by decide) _ _,
        lookup_setKey_self]
    · rw [lookup_setKey_other (by decide) _ _, lookup_setKey_other (by decide) _ _,
        lookup_setKey_other (by decide) _ _, lookup_eraseKey_self]
    · intro p hp; exact absurd hp (by simp)
    · intro _
      rw [lookup_setKey_other (by decide) _ _, lookup_setKey_other (by decide) _ _,
        lookup_setKey_other (by decide) _ _, lookup_eraseKey_other (by decide) _]
    · intro k h1 h2 h3 h4 h5
      rw [lookup_setKey_other h2 _ _, lookup_setKey_other h1 _ _,
        lookup_setKey_other h3 _ _, lookup_eraseKey_other h4 _]
  | some p =>
    refine ⟨setKey "photometric" p (setKey "count" (MetaVal.nat c)
      (setKey "driver" dv (setKey "transform" a (eraseKey "affine" meta)))), ?_, ?_, ?_, ?_, ?_, ?_, ?_, ?_⟩
    · simp only [buildMeta, h]
    · rw [lookup_setKey_other (by decide) _ _, lookup_setKey_other (by decide) _ _,
        lookup_setKey_self]
    · rw [lookup_setKey_other (by decide) _ _, lookup_setKey_self]
    · rw [lookup_setKey_other (by decide) _ _, lookup_setKey_other (by decide) _ _,
        lookup_setKey_other (by decide) _ _, lookup_setKey_self]
    · rw [lookup_setKey_other (by decide) _ _, lookup_setKey_other (by decide) _ _,
        lookup_setKey_other (by decide) _ _, lookup_setKey_other (by decide) _ _,
        lookup_eraseKey_self]
    · intro q hq
      obtain rfl : p = q := by injection hq
      rw [lookup_setKey_self]
    · intro hq; exact absurd hq (by simp)
    · intro k h1 h2 h3 h4 h5
      rw [lookup_setKey_other h5 _ _, lookup_setKey_other h2 _ _,
        lookup_setKey_other h1 _ _, lookup_setKey_other h3 _ _,
        lookup_eraseKey_other h4 _]

/-- The assembled output metadata always declares the accumulated
band count. -/
theorem buildMeta_count {meta : List (String × MetaVal)} {dv : MetaVal} {c : Nat}
    {ph : Option MetaVal} {out : List (String × MetaVal)}
    (h : buildMeta meta dv c ph = Except.ok out) :
    List.lookup "count" out = some (MetaVal.nat c) := by
  unfold buildMeta at h
  cases ha : List.lookup "affine" meta with
  | none => rw [ha] at h; exact absurd h (by simp)
  | some a =>
    rw [ha] at h
    cases ph with
    | none =>
      simp only [Except.ok.injEq] at h
      subst h
      rw [lookup_setKey_self]
    | some p =>
      simp only [Except.ok.injEq] at h
      subst h
      rw [lookup_setKey_other (by decide) _ _, lookup_setKey_self]

/-- A valid in-bounds range 1 ≤ M ≤ O ≤ N resolves to exactly the
band list M..O, of length O-M+1. -/
theorem rangeBranch_eval (N M O : Nat) (hM : 1 ≤ M) (hMO : M ≤ O) (hON : O ≤ N) :
    rangeBranch (srcIndexes N) (some (M : Int)) (some (O : Int)) =
      (Sel.list ((List.range' M (O - M + 1)).map Int.ofNat), O - M + 1) := by
  have hs : pySliceIdx N ((M : Int) - 1) = M - 1 := by
    simp only [pySliceIdx]
    split <;> omega
  have he : pySliceIdx N (O : Int) = O := by
    simp only [pySliceIdx]
    split <;> omega
  rw [rangeBranch_eq]
  simp only [Option.getD, pySlice, sliceStart, sliceStop, length_srcIndexes, hs, he]
  unfold srcIndexes
  rw [← List.map_drop, ← List.map_take, rgDrop, rgTake]
  have h1 : 1 + (M - 1) = M := by omega
  have h2 : min (O - (M - 1)) (N - (M - 1)) = O - M + 1 := by omega
  rw [h1, h2, List.length_map, List.length_range']

/-- An absent range start is identical to a range start of 1. -/
theorem rangeBranch_none_start (xs : List Int) (stop? : Option Int) :
    rangeBranch xs none stop? = rangeBranch xs (some 1) stop? := rfl

/-- An absent range stop is identical to a range stop of the input's
band count. -/
theorem rangeBranch_none_stop (n : Nat) (start? : Option Int) :
    rangeBranch (srcIndexes n) start? none = rangeBranch (srcIndexes n) start? (some (n : Int)) := by
  have hn : pySliceIdx n (n : Int) = n := by
    simp only [pySliceIdx]
    split <;> omega
  rw [rangeBranch_eq, rangeBranch_eq]
  simp only [pySlice, sliceStart, sliceStop, length_srcIndexes, hn]

/-- A range whose start exceeds its stop (with a positive stop)
resolves silently to the empty selection contributing zero. -/
theorem rangeBranch_empty (n : Nat) (a b : Int) (hb : 1 ≤ b) (hab : b < a) :
    rangeBranch (srcIndexes n) (some a) (some b) = (Sel.list [], 0) := by
  have h0 : pySliceIdx n b - pySliceIdx n (a - 1) = 0 := by
    simp only [pySliceIdx]
    split <;> split <;> omega
  rw [rangeBranch_eq]
  simp only [Option.getD, pySlice, sliceStart, sliceStop, length_srcIndexes, h0,
    List.take_zero, List.length_nil]

/-- C1 counterexample: the claim says the expression "5..2"
(start > stop) raises an error and never silently resolves to an
empty selection contributing zero output bands; but on a 5-band input
the parser returns successfully with the empty selection and a zero
contribution. -/
theorem C1_counterexample :
    resolveStep 5 (some "5..2") = Except.ok (Sel.list [], 0) := by decide

/-- C1 (amended): for every range expression whose start exceeds its
(positive) stop, the Selector Parser raises no error: it silently
resolves the range to the empty selection, contributing zero output
bands. -/
theorem C1_start_gt_stop_silently_empty (n : Nat) (a b : Int) (hb : 1 ≤ b) (hab : b < a) :
    rangeBranch (srcIndexes n) (some a) (some b) = (Sel.list [], 0) :=
  rangeBranch_empty n a b hb hab

/-- Witness for C1 at n = 5, start = 5, stop = 2. -/
theorem C1_start_gt_stop_silently_empty_witness :
    ((1 : Int) ≤ 2 ∧ (2 : Int) < 5) ∧
      rangeBranch (srcIndexes 5) (some 5) (some 2) = (Sel.list [], 0) :=
  ⟨by decide, C1_start_gt_stop_silently_empty 5 5 2 (by decide) (by decide)⟩

/-- C3: a valid range "M..O" over an N-band input (1 ≤ M ≤ O ≤ N)
resolves to exactly the integers M..O with length O-M+1; an absent
start behaves exactly like start 1 ("..N" = "1..N"), and an absent
stop behaves exactly like stop N ("N.." = "N..last band"). -/
theorem C3_range_resolution (N M O : Nat) (hM : 1 ≤ M) (hMO : M ≤ O) (hON : O ≤ N) :
    rangeBranch (srcIndexes N) (some (M : Int)) (some (O : Int)) =
      (Sel.list ((List.range' M (O - M + 1)).map Int.ofNat), O - M + 1) ∧
    (∀ stop?, rangeBranch (srcIndexes N) none stop? = rangeBranch (srcIndexes N) (some 1) stop?) ∧
    (∀ start?, rangeBranch (srcIndexes N) start? none =
      rangeBranch (srcIndexes N) start? (some (N : Int))) :=
  ⟨rangeBranch_eval N M O hM hMO hON,
    fun stop? => rangeBranch_none_start (srcIndexes N) stop?,
    fun start? => rangeBranch_none_stop N start?⟩

/-- Witness for C3 at N = 4, M = 2, O = 3. -/
theorem C3_range_resolution_witness :
    (1 ≤ 2 ∧ 2 ≤ 3 ∧ 3 ≤ 4) ∧
      rangeBranch (srcIndexes 4) (some 2) (some 3) =
        (Sel.list ((List.range' 2 (3 - 2 + 1)).map Int.ofNat), 3 - 2 + 1) :=
  ⟨by decide, (C3_range_resolution 4 2 3 (by decide) (by decide) (by decide)).1⟩

/-- C4: an absent selection expression over an input with n ≥ 1 bands
resolves to the full ordered band list 1..n and contributes exactly n
to the output count. -/
theorem C4_absent_selection_full_bands (n : Nat) (_hn : 1 ≤ n) :
    resolveStep n none = Except.ok (Sel.list ((List.range' 1 n).map Int.ofNat), n) := by
  simp only [resolveStep, srcIndexes, List.length_map, List.length_range']

/-- Witness for C4 at n = 3. -/
theorem C4_absent_selection_full_bands_witness :
    1 ≤ 3 ∧ resolveStep 3 none = Except.ok (Sel.list ((List.range' 1 3).map Int.ofNat), 3) :=
  ⟨by decide, C4_absent_selection_full_bands 3 (by decide)⟩

/-- C5: a comma-list expression resolves to exactly its tokens' values
in token order — duplicates kept, nothing sorted or deduplicated. -/
theorem C5_list_order_preserved (n : Nat) (item : String) (toks : List (List Char))
    (parts : List Int)
    (hdots : containsSub twoDots item.toList = false)
    (hsplit : pySplit commaSep item.toList = toks)
    (hparse : toks.mapM parseIntTok = Except.ok parts)
    (hlen : 2 ≤ parts.length) :
    resolveStep n (some item) = Except.ok (Sel.list parts, parts.length) := by
  simp only [resolveStep, hdots, Bool.false_eq_true, if_false, hsplit, listBranch, hparse]
  match parts, hlen with
  | p1 :: p2 :: rest, _ => rfl

/-- Witness for C5: "2,1,2" resolves to [2,1,2] (order and duplicate
preserved), not to a deduplicated or sorted list. -/
theorem C5_list_order_preserved_witness :
    (containsSub twoDots ("2,1,2").toList = false ∧
      pySplit commaSep ("2,1,2").toList = [['2'], ['1'], ['2']] ∧
      ([['2'], ['1'], ['2']] : List (List Char)).mapM parseIntTok = Except.ok [2, 1, 2] ∧
      2 ≤ ([2, 1, 2] : List Int).length) ∧
    resolveStep 3 (some "2,1,2") = Except.ok (Sel.list [2, 1, 2], 3) :=
  ⟨⟨by decide, by decide, by decide, by decide⟩,
    C5_list_order_preserved 3 "2,1,2" [['2'], ['1'], ['2']] [2, 1, 2]
      (by decide) (by decide) (by decide) (by decide)⟩

/-- C6: a single-token expression resolves to a scalar (not a
one-element list) contributing 1; in the copy phase a scalar is
written as a single band at the cursor (no batch) advancing the
cursor by 1, while a list is written as a batch to the contiguous
destination range starting at the cursor, advancing the cursor by its
length. -/
theorem C6_scalar_vs_list (n : Nat) (item : String) (t : List Char) (k : Int)
    (cursor : Nat) (l : List Int)
    (hdots : containsSub twoDots item.toList = false)
    (hsplit : pySplit commaSep item.toList = [t])
    (hk : pyInt? t = some k) :
    resolveStep n (some item) = Except.ok (Sel.scalar k, 1) ∧
    copyStep cursor (Sel.scalar k) =
      ({ read := Sel.scalar k, dst := [cursor], batch := false }, cursor + 1) ∧
    copyStep cursor (Sel.list l) =
      ({ read := Sel.list l, dst := List.range' cursor l.length, batch := true },
        cursor + l.length) := by
  refine ⟨?_, rfl, rfl⟩
  simp only [resolveStep, hdots, Bool.false_eq_true, if_false, hsplit, listBranch,
    List.mapM_cons, List.mapM_nil, parseIntTok, hk]
  rfl

/-- Witness for C6: "3" resolves to the scalar 3 and is copied via the
single-band path at cursor 1. -/
theorem C6_scalar_vs_list_witness :
    (containsSub twoDots ("3").toList = false ∧
      pySplit commaSep ("3").toList = [['3']] ∧
      pyInt? ['3'] = some 3) ∧
    (resolveStep 4 (some "3") = Except.ok (Sel.scalar 3, 1) ∧
      copyStep 1 (Sel.scalar 3) =
        ({ read := Sel.scalar 3, dst := [1], batch := false }, 2) ∧
      copyStep 1 (Sel.list [1, 2]) =
        ({ read := Sel.list [1, 2], dst := List.range' 1 2, batch := true }, 3)) :=
  ⟨⟨by decide, by decide, by decide⟩,
    C6_scalar_vs_list 4 "3" ['3'] 3 1 [1, 2] (by decide) (by decide) (by decide)⟩

/-- C7 counterexample: the claim says a range bound past the band
count is passed through and only fails later at the collaborator
read; but "2..9" over a 3-band input is clamped by the slice to
[2, 3] — every resolved index is in range and the read succeeds, so
nothing out of range is ever passed through and no later failure
occurs. -/
theorem C7_counterexample :
    resolveStep 3 (some "2..9") = Except.ok (Sel.list [2, 3], 2) ∧
      readBands 3 (Sel.list [2, 3]) = Except.ok () := by decide

/-- C7 (amended): a range expression is never locally rejected for
being out of bounds — but neither is any out-of-range index passed
through: Python slice clamping keeps every resolved range selection
within the input's bands, so the collaborator read of a resolved
range always succeeds. -/
theorem C7_out_of_range_clamped (n : Nat) (start? stop? : Option Int) (sel : Sel) (cnt : Nat)
    (h : rangeBranch (srcIndexes n) start? stop? = (sel, cnt)) :
    readBands n sel = Except.ok () := by
  have hsel : sel = Sel.list (pySlice (some (start?.getD 1 - 1)) stop? (srcIndexes n)) := by
    rw [rangeBranch_eq] at h
    exact (congrArg Prod.fst h).symm
  subst hsel
  simp only [readBands]
  rw [if_pos]
  rw [List.all_eq_true]
  intro x hx
  have hmem := pySlice_subset _ _ hx
  have hb := mem_srcIndexes hmem
  simpa [bandOk] using hb

/-- Witness for C7: "0..9" over 3 bands resolves (via slice
normalisation) to [3], which the collaborator reads successfully. -/
theorem C7_out_of_range_clamped_witness :
    rangeBranch (srcIndexes 3) (some 0) (some 9) = (Sel.list [3], 1) ∧
      readBands 3 (Sel.list [3]) = Except.ok () :=
  ⟨by decide, C7_out_of_range_clamped 3 (some 0) (some 9) (Sel.list [3]) 1 (by decide)⟩

/-- C10: the range "K..K" resolves to the one-element list [K]
(copied via the batch path), while the single token "K" resolves to
the scalar K (copied via the single-band path): both write band K to
the same destination cursor and advance it by 1, but along different
copy paths (batch flag true versus false). -/
theorem C10_range_single_vs_scalar (n K cursor : Nat) (t : List Char)
    (hK1 : 1 ≤ K) (hKn : K ≤ n) (ht : pyInt? t = some (Int.ofNat K)) :
    rangeBranch (srcIndexes n) (some (K : Int)) (some (K : Int)) =
      (Sel.list [Int.ofNat K], 1) ∧
    listBranch [t] = Except.ok (Sel.scalar (Int.ofNat K), 1) ∧
    copyStep cursor (Sel.list [Int.ofNat K]) =
      ({ read := Sel.list [Int.ofNat K], dst := [cursor], batch := true }, cursor + 1) ∧
    copyStep cursor (Sel.scalar (Int.ofNat K)) =
      ({ read := Sel.scalar (Int.ofNat K), dst := [cursor], batch := false }, cursor + 1) := by
  refine ⟨?_, ?_, ?_, rfl⟩
  · have h := rangeBranch_eval n K K hK1 (le_refl K) hKn
    rw [Nat.sub_self] at h
    simpa [List.range'_one] using h
  · simp only [listBranch, List.mapM_cons, List.mapM_nil, parseIntTok, ht]
    rfl
  · simp [copyStep, List.range'_one]

/-- Witness for C10 at n = 3, K = 2, cursor = 1, token "2". -/
theorem C10_range_single_vs_scalar_witness :
    (1 ≤ 2 ∧ 2 ≤ 3 ∧ pyInt? ['2'] = some (Int.ofNat 2)) ∧
    (rangeBranch (srcIndexes 3) (some 2) (some 2) = (Sel.list [Int.ofNat 2], 1) ∧
      listBranch [['2']] = Except.ok (Sel.scalar (Int.ofNat 2), 1) ∧
      copyStep 1 (Sel.list [Int.ofNat 2]) =
        ({ read := Sel.list [Int.ofNat 2], dst := [1], batch := true }, 2) ∧
      copyStep 1 (Sel.scalar (Int.ofNat 2)) =
        ({ read := Sel.scalar (Int.ofNat 2), dst := [1], batch := false }, 2)) :=
  ⟨⟨by decide, by decide, by decide⟩,
    C10_range_single_vs_scalar 3 2 1 ['2'] (by decide) (by decide) (by decide)⟩

/-- C2: on every successful run, the declared output band count (both
the accumulated `output_count` and the `count` field of the output
metadata) equals the sum of the counts contributed by the resolved
selections, and the destination bands written by the copy phase are
exactly the contiguous indices 1, 2, ..., output_count, in input-list
order, with no gaps or overlaps. -/
theorem C2_layout_invariants (inputs : List Dataset) (bidx : List String) (driver : String)
    (photometric : Option String) (r : StackResult)
    (h : stackBody inputs bidx driver photometric = Except.ok r) :
    r.output_count = (r.sels.map selCount).sum ∧
    List.lookup "count" r.kwargs = some (MetaVal.nat r.output_count) ∧
    (r.events.map CopyEvent.dst).flatten = List.range' 1 r.output_count := by
  cases hres : resolveAllGo (zipLongest inputs bidx) with
  | error e => simp [stackBody, hres] at h
  | ok pr =>
    obtain ⟨sels, output_count⟩ := pr
    cases inputs with
    | nil => simp [stackBody, hres] at h
    | cons first restIn =>
      cases hmeta : buildMeta first.meta (MetaVal.str driver) output_count
          (photometric.map MetaVal.str) with
      | error e => simp [stackBody, hres, hmeta] at h
      | ok kwargs =>
        cases hcopy : copyPhaseGo 1 ((first :: restIn).zip sels) with
        | error e => simp [stackBody, hres, hmeta, hcopy] at h
        | ok events =>
          simp only [stackBody, hres, hmeta, hcopy, Except.ok.injEq] at h
          subst h
          obtain ⟨hsum, hlen, hsome⟩ := resolveAllGo_spec _ _ _ hres
          have hlen' : sels.length = (first :: restIn).length := by
            rw [hlen, zipLongest_len_of_some _ _ hsome]
          refine ⟨hsum, buildMeta_count hmeta, ?_⟩
          have hfl := copyPhaseGo_flatten _ _ _ hcopy
          have hmap : ((first :: restIn).zip sels).map (fun p => selCount p.2) =
              sels.map selCount := by
            have hsnd : ((first :: restIn).zip sels).map Prod.snd = sels :=
              List.map_snd_zip _ _ (le_of_eq hlen')
            rw [show (fun (p : Dataset × Sel) => selCount p.2) = (selCount ∘ Prod.snd) from rfl,
              ← List.map_map, hsnd]
          rw [hfl, hmap, hsum]

/-- Witness for C2: one 3-band input with the selection "1,3". -/
theorem C2_layout_invariants_witness :
    stackBody [{ count := 3, meta := [("affine", MetaVal.str "A")] }] ["1,3"] "GTiff" none =
      Except.ok R0 ∧
    (R0.output_count = (R0.sels.map selCount).sum ∧
      List.lookup "count" R0.kwargs = some (MetaVal.nat R0.output_count) ∧
      (R0.events.map CopyEvent.dst).flatten = List.range' 1 R0.output_count) :=
  ⟨by decide,
    C2_layout_invariants [{ count := 3, meta := [("affine", MetaVal.str "A")] }] ["1,3"]
      "GTiff" none R0 (by decide)⟩

/-- C8 counterexample: the claim says all metadata fields other than
the band count, driver, and (optional) photometric field are copied
unchanged from the first input; but the pixel-to-world transform
value is moved from the key "affine" to the key "transform": the
input has an "affine" field and the assembled output has none, so the
output differs from the input metadata with only count and driver
replaced. -/
theorem C8_counterexample :
    buildMeta [("driver", MetaVal.str "X"), ("affine", MetaVal.str "A"),
        ("count", MetaVal.nat 3)] (MetaVal.str "GTiff") 7 none =
      Except.ok [("driver", MetaVal.str "GTiff"), ("count", MetaVal.nat 7),
        ("transform", MetaVal.str "A")] ∧
    List.lookup "affine" [("driver", MetaVal.str "GTiff"), ("count", MetaVal.nat 7),
        ("transform", MetaVal.str "A")] = none ∧
    List.lookup "affine" [("driver", MetaVal.str "X"), ("affine", MetaVal.str "A"),
        ("count", MetaVal.nat 3)] = some (MetaVal.str "A") := by decide

/-- C8 (amended): the output metadata equals the first input's
metadata with the band count field replaced by the accumulated total,
the driver field set from the CLI option, a photometric field added
exactly when one is supplied, and the pixel-to-world transform value
moved from the key "affine" to the key "transform"; every other field
is unchanged. -/
theorem C8_metadata_assembly (meta : List (String × MetaVal)) (dv : MetaVal) (c : Nat)
    (ph : Option MetaVal) (a : MetaVal) (h : List.lookup "affine" meta = some a) :
    ∃ out, buildMeta meta dv c ph = Except.ok out ∧
      List.lookup "driver" out = some dv ∧
      List.lookup "count" out = some (MetaVal.nat c) ∧
      List.lookup "transform" out = some a ∧
      List.lookup "affine" out = none ∧
      (∀ p, ph = some p → List.lookup "photometric" out = some p) ∧
      (ph = none → List.lookup "photometric" out = List.lookup "photometric" meta) ∧
      (∀ k, k ≠ "driver" → k ≠ "count" → k ≠ "transform" → k ≠ "affine" →
        k ≠ "photometric" → List.lookup k out = List.lookup k meta) :=
  buildMeta_spec meta dv c ph a h

/-- Witness for C8 on a two-field metadata mapping. -/
theorem C8_metadata_assembly_witness :
    List.lookup "affine" [("affine", MetaVal.str "A"), ("width", MetaVal.nat 10)] =
      some (MetaVal.str "A") ∧
    ∃ out, buildMeta [("affine", MetaVal.str "A"), ("width", MetaVal.nat 10)]
        (MetaVal.str "GTiff") 7 none = Except.ok out ∧
      List.lookup "driver" out = some (MetaVal.str "GTiff") ∧
      List.lookup "count" out = some (MetaVal.nat 7) ∧
      List.lookup "transform" out = some (MetaVal.str "A") ∧
      List.lookup "affine" out = none ∧
      (∀ p, (none : Option MetaVal) = some p → List.lookup "photometric" out = some p) ∧
      ((none : Option MetaVal) = none → List.lookup "photometric" out =
        List.lookup "photometric" [("affine", MetaVal.str "A"), ("width", MetaVal.nat 10)]) ∧
      (∀ k, k ≠ "driver" → k ≠ "count" → k ≠ "transform" → k ≠ "affine" →
        k ≠ "photometric" → List.lookup k out =
          List.lookup k [("affine", MetaVal.str "A"), ("width", MetaVal.nat 10)]) :=
  ⟨by decide,
    C8_metadata_assembly [("affine", MetaVal.str "A"), ("width", MetaVal.nat 10)]
      (MetaVal.str "GTiff") 7 none (MetaVal.str "A") (by decide)⟩

/-- C9: the command's exit code is 0 exactly when the whole body
succeeded and 1 exactly when some exception was raised, in which case
the error was logged first; there is no other exit code and no
partial-success exit. -/
theorem C9_exit_codes (inputs : List Dataset) (bidx : List String) (driver : String)
    (photometric : Option String) :
    ((stackRun inputs bidx driver photometric).1 = 0 ∧
      (∃ r, stackBody inputs bidx driver photometric = Except.ok r) ∧
      (stackRun inputs bidx driver photometric).2 = []) ∨
    ((stackRun inputs bidx driver photometric).1 = 1 ∧
      (∃ e, stackBody inputs bidx driver photometric = Except.error e) ∧
      (stackRun inputs bidx driver photometric).2 ≠ []) := by
  cases h : stackBody inputs bidx driver photometric with
  | ok r =>
    left
    refine ⟨?_, ⟨r, rfl⟩, ?_⟩ <;> simp [stackRun, h]
  | error e =>
    right
    refine ⟨?_, ⟨e, rfl⟩, ?_⟩ <;> simp [stackRun, h]
